import Mathlib

/- Verification of the client-side filtering / sorting / view-synchronization
engine of the Portnet-L2-Automator repository.  The engine lives in
`static/js/training.js` (training-data card grid) and in the database-status
page script (knowledge-base and training-data tables); both are the same
algorithm, so the embedding below is written once over an abstract record
type and covers both instantiations.

Modelling conventions:
* a rendered `.training-item` element (or table row) is a `Record` carrying
  the `data-urgency`, `data-category`, `data-date` and `data-incident`
  attributes the scripts read;
* `Array.prototype.sort` is modelled as a stable insertion sort driven by the
  boolean relation "the comparator returns a value ≤ 0"; per ES2019 the
  built-in sort is stable, and per the `SortCompare` clause a comparator
  result of NaN is coerced to +0;
* `new Date(item.dataset.date || 0)` is modelled by `DateAttr` / `dateMs`:
  an absent or empty attribute is falsy, so the code builds `new Date(0)`
  (the epoch); a non-empty unparseable attribute yields an Invalid Date whose
  numeric value is NaN, making every comparison against it NaN, hence +0. -/

namespace PortnetL2

/-- The sort order radio value, `'newest'` or `'oldest'`. -/
inductive SortOrder
  | newest
  | oldest
  deriving DecidableEq

/-- The `data-date` attribute of a rendered item, as consumed by
`new Date(item.dataset.date || 0)` (training.js:187-188).
`missing` is an absent or empty attribute (falsy, so `|| 0` applies and the
date is the epoch); `valid ms` is a parseable date string denoting `ms`
milliseconds since the epoch (host date parsing is abstracted); `invalid` is
a non-empty unparseable string (truthy, `new Date` gives NaN). -/
inductive DateAttr
  | missing
  | valid (ms : Int)
  | invalid
  deriving DecidableEq

/-- One rendered record: the data attributes the filter engine reads.
`incident` is the lower-cased free-text blob the page stores in
`data-incident` (the spec calls it `searchText`); `category` is `none` when
the `data-category` attribute is absent. -/
structure Record where
  urgency : String
  category : Option String
  date : DateAttr
  incident : String
  deriving DecidableEq

/-- The module-level `filters` object of training.js:6-11. -/
structure Filters where
  urgency : List String
  categories : List String
  sortBy : SortOrder
  searchTerm : String
  deriving DecidableEq

/-- The initial / reset filter state (training.js:6-11 and 250-255). -/
def defaultFilters : Filters :=
  { urgency := [], categories := [], sortBy := SortOrder.newest, searchTerm := "" }

/-- Replacement of the selected urgencies, as applyFilters reads them from
the checked `.urgency-cb` boxes (training.js:152-153). -/
def setUrgencyFilter (labels : List String) (f : Filters) : Filters :=
  { f with urgency := labels }

/-- Replacement of the selected categories (training.js:156-157). -/
def setCategoryFilter (labels : List String) (f : Filters) : Filters :=
  { f with categories := labels }

/-- Replacement of the sort order (training.js:160-161). -/
def setSortOrder (o : SortOrder) (f : Filters) : Filters :=
  { f with sortBy := o }

/-- The search-input handler stores the input value lower-cased
(training.js:140-142). -/
def setSearchTerm (s : String) (f : Filters) : Filters :=
  { f with searchTerm := s.toLower }

/-- Resetting the filter state, the `filters = { ... }` assignment inside
clearAllFilters (training.js:250-255). -/
def clearAllFiltersState (_f : Filters) : Filters := defaultFilters

/-- Numeric value of the date built from a `data-date` attribute: `some ms`
for a real date, `none` for the NaN of an Invalid Date. -/
def dateMs : DateAttr → Option Int
  | DateAttr.missing => some 0
  | DateAttr.valid ms => some ms
  | DateAttr.invalid => none

/-- The comparator of training.js:186-190: `dateB - dateA` for `'newest'`,
`dateA - dateB` for `'oldest'`.  When either date is Invalid the subtraction
is NaN, which the `SortCompare` clause of the language spec coerces to +0,
so the model returns 0 in that case. -/
def sortCompare (sortBy : SortOrder) (a b : Record) : Int :=
  match dateMs a.date, dateMs b.date with
  | some dateA, some dateB =>
      if sortBy = SortOrder.newest then dateB - dateA else dateA - dateB
  | _, _ => 0

/-- The induced "stays no later than" relation of a stable comparator sort:
element `a` is placed before `b` exactly when the comparator does not demand
the opposite order, i.e. when its value is ≤ 0. -/
def recLE (sortBy : SortOrder) (a b : Record) : Bool :=
  decide (sortCompare sortBy a b ≤ 0)

/-- Insertion of `a` into `l`, placing `a` before the first element it may
precede.  Equal elements are not passed over, which gives stability. -/
def insertLE {α : Type} (le : α → α → Bool) (a : α) : List α → List α
  | [] => [a]
  | b :: bs => if le a b then a :: b :: bs else b :: insertLE le a bs

/-- Stable sort by repeated insertion; models the (stable, per ES2019)
`Array.prototype.sort`. -/
def stableSort {α : Type} (le : α → α → Bool) : List α → List α
  | [] => []
  | a :: as => insertLE le a (stableSort le as)

/-- The `items.sort(...)` step of filterItems (training.js:186-190). -/
def sortRecords (sortBy : SortOrder) (l : List Record) : List Record :=
  stableSort (recLE sortBy) l

/-- String.prototype.includes: the needle occurs contiguously in the
haystack (training.js:203 uses `incident.includes(filters.searchTerm)`). -/
def jsIncludes (hay needle : String) : Bool :=
  decide (needle.toList <:+: hay.toList)

/-- The visibility predicate of filterItems (training.js:196-205): a record
is shown iff it matches the urgency, category and search predicates. -/
def matchesFilters (f : Filters) (r : Record) : Bool :=
  let matchesUrgency := f.urgency.isEmpty || f.urgency.contains r.urgency
  let matchesCategory := f.categories.isEmpty ||
      (match r.category with
       | some cat => f.categories.contains cat
       | none => false)
  let matchesSearch := f.searchTerm == "" || jsIncludes r.incident f.searchTerm
  matchesUrgency && matchesCategory && matchesSearch

/-- Core of filterItems (training.js:180-216): sort all items, then walk
them in order, showing the matching ones and counting them.  The result is
the visible sequence (in sorted order) and `visibleCount`. -/
def filterItems (f : Filters) (items : List Record) : List Record × Nat :=
  let sorted := sortRecords f.sortBy items
  sorted.foldl
    (fun acc item =>
      if matchesFilters f item then (acc.1 ++ [item], acc.2 + 1) else acc)
    ([], 0)

/-- The count computed at the top of updateFilterBadge (training.js:279-281);
the spec exposes it as `activeFilterCount()`. -/
def activeFilterCount (f : Filters) : Nat :=
  let count := f.urgency.length + f.categories.length
  let count := if f.sortBy ≠ SortOrder.newest then count + 1 else count
  if f.searchTerm ≠ "" then count + 1 else count

/-- Visibility of the `.filter-count` badge element. -/
inductive BadgeState
  | shown (count : Nat)
  | hidden
  deriving DecidableEq

/-- The badge update of training.js:283-289: show the count iff positive. -/
def updateFilterBadge (f : Filters) : BadgeState :=
  if activeFilterCount f > 0 then BadgeState.shown (activeFilterCount f)
  else BadgeState.hidden

/-- Effective numeric date of a record once Invalid Dates are out of the
picture; `missing` is the epoch 0. -/
def dateValue (r : Record) : Int :=
  (dateMs r.date).getD 0

/-- JavaScript `Set.add` on an insertion-ordered set modelled as a
duplicate-free list: append the element if it is not already present. -/
def setAdd (s : List String) (c : String) : List String :=
  if c ∈ s then s else s ++ [c]

/-- The forEach body of populateCategories (training.js:82-87): read
`item.dataset.category` and add it to the Set when it is truthy (present and
non-empty) and not the sentinel `'none'`. -/
def populateStep (acc : List String) (item : Record) : List String :=
  match item.category with
  | some cat => if cat ≠ "" ∧ cat ≠ "none" then setAdd acc cat else acc
  | none => acc

/-- Category collection of populateCategories (training.js:78-87) and
populateKBCategories: fold the forEach body over the rendered items in
document order, starting from an empty Set. -/
def populateCategoriesModel (items : List Record) : List String :=
  items.foldl populateStep []

/-- One step of category discovery as the spec sentence words it: collect
every present category value, excluding only the sentinel `'none'`. -/
def specStep (acc : List String) (item : Record) : List String :=
  match item.category with
  | some cat => if cat ≠ "none" then setAdd acc cat else acc
  | none => acc

/-- Category discovery as the spec sentence words it: the distinct `category`
values of the records, excluding only the sentinel `'none'`, in first-seen
order.  Written from the spec's words, to be compared with
`populateCategoriesModel`, the definition taken from the source. -/
def specCategoryDiscovery (items : List Record) : List String :=
  items.foldl specStep []

/-- The page state filterItems and clearAllFilters manipulate: the
`.training-item` elements in their current document order, each with its
display flag (`true` = shown), plus the `#visibleCount` text and whether the
`#noResults` empty-state element is displayed. -/
structure ViewUI where
  dom : List (Record × Bool)
  visibleCountText : Nat
  noResultsShown : Bool
  deriving DecidableEq

/-- The full effect of filterItems (training.js:180-227): re-sort the items,
set each item's display from the match predicate, write the visible count,
and show the empty-state element exactly when the count is zero. -/
def runFilterItems (f : Filters) (ui : ViewUI) : ViewUI :=
  let sorted := stableSort (fun a b => recLE f.sortBy a.1 b.1) ui.dom
  let dom := sorted.map (fun e => (e.1, matchesFilters f e.1))
  let count := (dom.filter (fun e => e.2)).length
  { dom := dom, visibleCountText := count, noResultsShown := decide (count = 0) }

/-- The full effect of clearAllFilters (training.js:233-272): reset the
filter state, show every item without re-sorting (the document order is left
as it is), write the collection size as the visible count, and
unconditionally hide the empty-state element (training.js:265). -/
def runClear (ui : ViewUI) : Filters × ViewUI :=
  (defaultFilters,
   { dom := ui.dom.map (fun e => (e.1, true)),
     visibleCountText := ui.dom.length,
     noResultsShown := false })

/-- One checkbox group ("All" plus the individual boxes), as manipulated by
setupUrgencyCheckboxes (training.js:40-59) and by the category block of
populateCategories (training.js:113-129); the database-status page
duplicates the same handlers. -/
structure CheckboxGroup where
  allBox : Bool
  boxes : List Bool
  deriving DecidableEq

/-- A user click on a checkbox: either the "All" box or individual box `i`. -/
inductive CbEvent
  | toggleAll
  | toggleBox (i : Nat)
  deriving DecidableEq

/-- Flip entry `i` of a checkbox list; clicking outside the list changes
nothing. -/
def toggleAt : List Bool → Nat → List Bool
  | [], _ => []
  | b :: bs, 0 => (!b) :: bs
  | b :: bs, Nat.succ i => b :: toggleAt bs i

/-- Checked state of box `i` (false when there is no such box). -/
def getAt : List Bool → Nat → Bool
  | [], _ => false
  | b :: _, 0 => b
  | _ :: bs, Nat.succ i => getAt bs i

/-- A settled click: the browser flips the clicked checkbox, then the change
handler runs.  The "All" handler unchecks every individual box when "All"
became checked (training.js:46-50); an individual handler unchecks "All"
when that box became checked (training.js:52-58). -/
def cbStep (s : CheckboxGroup) : CbEvent → CheckboxGroup
  | CbEvent.toggleAll =>
      let nowChecked := !s.allBox
      if nowChecked then { allBox := nowChecked, boxes := s.boxes.map fun _ => false }
      else { allBox := nowChecked, boxes := s.boxes }
  | CbEvent.toggleBox i =>
      let boxes := toggleAt s.boxes i
      if getAt boxes i then { allBox := false, boxes := boxes }
      else { allBox := s.allBox, boxes := boxes }

/-- Page-load state of a group of `n` checkboxes: "All" checked, every
individual box unchecked (the templates render `urgAll` / `catAll` with the
`checked` attribute). -/
def initGroup (n : Nat) : CheckboxGroup :=
  { allBox := true, boxes := List.replicate n false }

/-- The group state after a finished sequence of user clicks. -/
def runEvents (n : Nat) (evs : List CbEvent) : CheckboxGroup :=
  evs.foldl cbStep (initGroup n)

/-- Concrete record with a valid positive timestamp, for counterexamples and
witnesses. -/
def recValid100 : Record :=
  { urgency := "Low", category := some "outage", date := DateAttr.valid 100,
    incident := "disk failure on node 7" }

/-- Concrete record with a non-empty unparseable `data-date`. -/
def recInvalid : Record :=
  { urgency := "High", category := some "network", date := DateAttr.invalid,
    incident := "switch rebooted" }

/-- Concrete record with a missing `data-date`. -/
def recMissing : Record :=
  { urgency := "Low", category := none, date := DateAttr.missing,
    incident := "no date recorded" }

/-- Concrete record whose `data-category` is the empty string. -/
def recEmptyCat : Record :=
  { urgency := "Low", category := some "", date := DateAttr.valid 1,
    incident := "uncategorised" }

/-- Concrete record carrying the sentinel category `'none'`. -/
def recNoneCat : Record :=
  { urgency := "Low", category := some "none", date := DateAttr.valid 2,
    incident := "sentinel" }

/-- Concrete record with category `'outage'`. -/
def recOutage : Record :=
  { urgency := "Critical", category := some "outage", date := DateAttr.valid 3,
    incident := "outage observed" }

/-- Record with timestamp 100, for the clear-does-not-resort counterexample. -/
def recA : Record :=
  { urgency := "Low", category := some "outage", date := DateAttr.valid 100,
    incident := "older" }

/-- Record with timestamp 200. -/
def recB : Record :=
  { urgency := "High", category := some "network", date := DateAttr.valid 200,
    incident := "newer" }

/-- A page with no records at all. -/
def uiEmpty : ViewUI :=
  { dom := [], visibleCountText := 0, noResultsShown := false }

/-- A page whose two records stand in ascending date order, as a previous
`'oldest'` filterItems pass leaves them. -/
def uiTwo : ViewUI :=
  { dom := [(recA, true), (recB, true)], visibleCountText := 2,
    noResultsShown := false }

/-- Membership in an insertion is membership in the extended list. -/
theorem mem_insertLE {α : Type} {le : α → α → Bool} {a x : α} :
    ∀ {l : List α}, x ∈ insertLE le a l ↔ x = a ∨ x ∈ l := by
  intro l
  induction l with
  | nil => simp [insertLE]
  | cons b bs ih =>
    simp only [insertLE]
    by_cases h : le a b = true
    · simp [h, List.mem_cons]
    · simp [h, List.mem_cons, ih, or_left_comm]

/-- Inserting `a` permutes consing `a`. -/
theorem perm_insertLE {α : Type} (le : α → α → Bool) (a : α) :
    ∀ l : List α, (insertLE le a l).Perm (a :: l) := by
  intro l
  induction l with
  | nil => simp [insertLE]
  | cons b bs ih =>
    simp only [insertLE]
    by_cases h : le a b = true
    · simp [h]
    · rw [if_neg h]
      exact (ih.cons b).trans (List.Perm.swap a b bs)

/-- The stable sort permutes its input. -/
theorem perm_stableSort {α : Type} (le : α → α → Bool) :
    ∀ l : List α, (stableSort le l).Perm l := by
  intro l
  induction l with
  | nil => exact List.Perm.refl _
  | cons a as ih =>
    simp only [stableSort]
    exact (perm_insertLE le a _).trans (ih.cons a)

/-- The stable sort neither adds nor drops elements. -/
theorem mem_stableSort {α : Type} {le : α → α → Bool} {x : α} {l : List α} :
    x ∈ stableSort le l ↔ x ∈ l :=
  (perm_stableSort le l).mem_iff

/-- Inserting an element every kept element may follow puts it in front of
the kept elements. -/
theorem filter_insertLE_pos {α : Type} {le : α → α → Bool} {p : α → Bool} {a : α}
    (hall : ∀ b, p b = true → le a b = true) (ha : p a = true) :
    ∀ l : List α, (insertLE le a l).filter p = a :: l.filter p := by
  intro l
  induction l with
  | nil => simp [insertLE, ha]
  | cons b bs ih =>
    simp only [insertLE]
    by_cases hle : le a b = true
    · simp [hle, List.filter_cons, ha]
    · have hpb : p b = false := by
        cases hpb : p b
        · rfl
        · exact absurd (hall b hpb) hle
      rw [if_neg (by simp [hle])]
      simp [List.filter_cons, hpb, ih]

/-- Inserting a dropped element leaves the kept elements unchanged. -/
theorem filter_insertLE_neg {α : Type} {le : α → α → Bool} {p : α → Bool} {a : α}
    (ha : p a = false) :
    ∀ l : List α, (insertLE le a l).filter p = l.filter p := by
  intro l
  induction l with
  | nil => simp [insertLE, ha]
  | cons b bs ih =>
    simp only [insertLE]
    by_cases hle : le a b = true
    · simp [hle, List.filter_cons, ha]
    · rw [if_neg (by simp [hle])]
      simp [List.filter_cons, ih]

/-- Stability of the insertion sort: the sorted list restricted to any class
of pairwise order-equivalent elements is exactly the input restricted to
that class. -/
theorem filter_stableSort {α : Type} {le : α → α → Bool} {p : α → Bool}
    (h : ∀ a b, p a = true → p b = true → le a b = true) :
    ∀ l : List α, (stableSort le l).filter p = l.filter p := by
  intro l
  induction l with
  | nil => rfl
  | cons a as ih =>
    simp only [stableSort]
    cases hpa : p a
    · rw [filter_insertLE_neg hpa, ih, List.filter_cons, hpa]
      simp
    · rw [filter_insertLE_pos (fun b hb => h a b hpa hb) hpa, ih, List.filter_cons, hpa]
      simp

/-- Records whose dates compute to the same value (including via NaN) always
compare as "may stay first". -/
theorem sortCompare_le_of_eq {ord : SortOrder} {a b : Record}
    (h : dateMs a.date = dateMs b.date) : sortCompare ord a b ≤ 0 := by
  unfold sortCompare
  rw [h]
  cases hb : dateMs b.date with
  | none => simp
  | some v => cases ord <;> simp

/-- C3: apply's sort step is a stable reordering: the output is a
permutation of the input, and for every timestamp class (the value the code
computes from `data-date`, `none` being the NaN of an unparseable date) the
records of that class appear in the output exactly in their input order,
under both sort orders.  Two records with equal timestamps therefore never
swap. -/
theorem c3_sort_stable :
    ∀ (ord : SortOrder) (l : List Record),
      (sortRecords ord l).Perm l ∧
      ∀ t : Option Int,
        (sortRecords ord l).filter (fun r => decide (dateMs r.date = t)) =
          l.filter (fun r => decide (dateMs r.date = t)) := by
  intro ord l
  constructor
  · exact perm_stableSort _ l
  · intro t
    apply filter_stableSort
    intro a b ha hb
    have ha' : dateMs a.date = t := of_decide_eq_true ha
    have hb' : dateMs b.date = t := of_decide_eq_true hb
    exact decide_eq_true (sortCompare_le_of_eq (ha'.trans hb'.symm))

/-- The counting fold of filterItems computes the kept elements and their
number. -/
theorem foldl_count (p : Record → Bool) :
    ∀ (l : List Record) (acc : List Record) (n : Nat),
      l.foldl (fun acc2 item =>
          if p item then (acc2.1 ++ [item], acc2.2 + 1) else acc2) (acc, n) =
        (acc ++ l.filter p, n + (l.filter p).length) := by
  intro l
  induction l with
  | nil => intro acc n; simp
  | cons x xs ih =>
    intro acc n
    rw [List.foldl_cons]
    cases hp : p x
    · simp only [hp, Bool.false_eq_true, if_false]
      rw [ih, List.filter_cons, hp]
      simp
    · simp only [hp, if_true]
      rw [ih, List.filter_cons, hp]
      simp [List.append_assoc]
      omega

/-- filterItems returns the sorted matching records together with their
count. -/
theorem filterItems_eq (f : Filters) (l : List Record) :
    filterItems f l =
      ((sortRecords f.sortBy l).filter (matchesFilters f),
        ((sortRecords f.sortBy l).filter (matchesFilters f)).length) := by
  unfold filterItems
  rw [foldl_count (matchesFilters f)]
  simp

/-- C1: apply is total — the embedding is a total function, it returns an
internally consistent result (`visibleCount` is the length of the visible
sequence) for every filter state and record sequence, and the empty input
yields the empty visible sequence with `visibleCount = 0`. -/
theorem c1_apply_total :
    (∀ f : Filters, filterItems f [] = ([], 0)) ∧
    (∀ (f : Filters) (l : List Record),
      (filterItems f l).2 = (filterItems f l).1.length) := by
  constructor
  · intro f; rfl
  · intro f l
    rw [filterItems_eq]

/-- The boolean match predicate of the source coincides with the spec's
three-clause visibility condition. -/
theorem matchesFilters_iff (f : Filters) (r : Record) :
    matchesFilters f r = true ↔
      (f.urgency = [] ∨ r.urgency ∈ f.urgency) ∧
      (f.categories = [] ∨ ∃ c, r.category = some c ∧ c ∈ f.categories) ∧
      (f.searchTerm = "" ∨ f.searchTerm.toList <:+: r.incident.toList) := by
  unfold matchesFilters jsIncludes
  cases hc : r.category with
  | none => simp [hc, List.isEmpty_iff, and_assoc]
  | some cat => simp [hc, List.isEmpty_iff, and_assoc]

/-- C2: a record is in apply's visible sequence exactly when it is an input
record satisfying all three predicates — its urgency is unconstrained or
selected, its category is unconstrained or selected, and the search term is
empty or a substring of its search text; and the stored search term is the
lower-cased input. -/
theorem c2_visible_iff :
    (∀ (f : Filters) (l : List Record) (r : Record),
        r ∈ (filterItems f l).1 ↔
          r ∈ l ∧
          (f.urgency = [] ∨ r.urgency ∈ f.urgency) ∧
          (f.categories = [] ∨ ∃ c, r.category = some c ∧ c ∈ f.categories) ∧
          (f.searchTerm = "" ∨ f.searchTerm.toList <:+: r.incident.toList)) ∧
    (∀ (s : String) (f : Filters), (setSearchTerm s f).searchTerm = s.toLower) := by
  constructor
  · intro f l r
    rw [filterItems_eq]
    show r ∈ (sortRecords f.sortBy l).filter (matchesFilters f) ↔ _
    rw [List.mem_filter, matchesFilters_iff]
    unfold sortRecords
    rw [mem_stableSort]
  · intro s f
    rfl

/-- C5: clearing the filters is idempotent, fixes the default state, resets
every component to its default, and leaves an active-filter count of 0. -/
theorem c5_clear_idempotent :
    ∀ f : Filters,
      clearAllFiltersState (clearAllFiltersState f) = clearAllFiltersState f ∧
      clearAllFiltersState defaultFilters = defaultFilters ∧
      (clearAllFiltersState f).urgency = [] ∧
      (clearAllFiltersState f).categories = [] ∧
      (clearAllFiltersState f).sortBy = SortOrder.newest ∧
      (clearAllFiltersState f).searchTerm = "" ∧
      activeFilterCount (clearAllFiltersState f) = 0 := by
  intro f
  refine ⟨rfl, rfl, rfl, rfl, rfl, rfl, ?_⟩
  show activeFilterCount defaultFilters = 0
  decide

/-- C6: the count driving the badge equals the spec's formula — selected
urgencies plus selected categories plus one for a non-default sort order
plus one for a non-empty search term — the badge shows that count exactly
when it is positive and is hidden otherwise, and the Critical-plus-oldest
scenario from the default state counts 2. -/
theorem c6_activeFilterCount_badge :
    (∀ f : Filters,
        activeFilterCount f =
          f.urgency.length + f.categories.length +
            (if f.sortBy ≠ SortOrder.newest then 1 else 0) +
            (if f.searchTerm ≠ "" then 1 else 0) ∧
        updateFilterBadge f =
          (if 0 < activeFilterCount f then BadgeState.shown (activeFilterCount f)
           else BadgeState.hidden)) ∧
    activeFilterCount
        (setSortOrder SortOrder.oldest (setUrgencyFilter ["Critical"] defaultFilters)) = 2 := by
  refine ⟨fun f => ⟨?_, rfl⟩, by decide⟩
  unfold activeFilterCount
  by_cases h1 : f.sortBy = SortOrder.newest <;>
    by_cases h2 : f.searchTerm = "" <;>
      simp [h1, h2]

/-- Adding an element that satisfies `q` to a Set whose elements satisfy `q`
keeps every element satisfying `q`. -/
theorem setAdd_all {q : String → Bool} {s : List String} {c : String}
    (hs : s.all q = true) (hc : q c = true) : (setAdd s c).all q = true := by
  unfold setAdd
  split
  · exact hs
  · simp [List.all_append, hs, hc]

/-- Every element accumulated by the populateCategories fold either was in
the accumulator or satisfies any property enjoyed by all kept categories of
the items. -/
theorem populate_all {q : String → Bool} :
    ∀ (items : List Record) (acc : List String),
      acc.all q = true →
      (∀ r ∈ items, ∀ cat : String,
        r.category = some cat → cat ≠ "" → cat ≠ "none" → q cat = true) →
      (items.foldl populateStep acc).all q = true := by
  intro items
  induction items with
  | nil => intro acc ha _; simpa using ha
  | cons r rs ih =>
    intro acc ha hr
    rw [List.foldl_cons]
    apply ih
    · unfold populateStep
      cases hc : r.category with
      | none => exact ha
      | some cat =>
        show (if cat ≠ "" ∧ cat ≠ "none" then setAdd acc cat else acc).all q = true
        by_cases hcc : cat ≠ "" ∧ cat ≠ "none"
        · rw [if_pos hcc]
          exact setAdd_all ha (hr r (by simp) cat hc hcc.1 hcc.2)
        · rw [if_neg hcc]
          exact ha
    · intro r' hr' cat hcat h1 h2
      exact hr r' (by simp [hr']) cat hcat h1 h2

/-- C10: every generated filter choice is a category value that actually
occurs on some record, and is neither the empty string nor the sentinel
`'none'`; in particular no absent or empty category value ever appears. -/
theorem c10_discovery_excludes_missing_empty :
    ∀ items : List Record,
      (populateCategoriesModel items).all
        (fun c => decide (c ≠ "" ∧ c ≠ "none" ∧ ∃ r ∈ items, r.category = some c)) = true := by
  intro items
  unfold populateCategoriesModel
  apply populate_all
  · rfl
  · intro r hr cat hcat h1 h2
    exact decide_eq_true ⟨h1, h2, r, hr, hcat⟩

/-- C7 counterexample: on a record whose `data-category` is the empty
string, the code's discovery drops the value (the truthiness guard), while
the claim's description — distinct category values excluding only the
sentinel `'none'` — would keep it. -/
theorem c7_counterexample :
    populateCategoriesModel [recEmptyCat] = [] ∧
    specCategoryDiscovery [recEmptyCat] = [""] := by
  constructor
  · decide
  · decide

/-- The code's fold agrees with the spec-worded fold once the records with
an absent or empty category are dropped. -/
theorem populate_filter_eq :
    ∀ (items : List Record) (acc : List String),
      items.foldl populateStep acc =
        (items.filter
          (fun r => decide (r.category ≠ some "" ∧ r.category ≠ none))).foldl specStep acc := by
  intro items
  induction items with
  | nil => intro acc; rfl
  | cons r rs ih =>
    intro acc
    rw [List.foldl_cons, List.filter_cons]
    cases hc : r.category with
    | none =>
      rw [if_neg (by simp [hc])]
      rw [show populateStep acc r = acc by unfold populateStep; rw [hc]]
      exact ih acc
    | some cat =>
      by_cases h0 : cat = ""
      · subst h0
        rw [if_neg (by simp [hc])]
        rw [show populateStep acc r = acc by
          unfold populateStep; rw [hc]; simp]
        exact ih acc
      · rw [if_pos (by simp [hc, h0])]
        rw [List.foldl_cons]
        rw [show populateStep acc r = specStep acc r by
          unfold populateStep specStep
          rw [hc]
          by_cases h1 : cat = "none"
          · simp [h1]
          · simp [h0, h1]]
        exact ih (specStep acc r)

/-- C7 amended: category discovery returns the distinct category values
excluding the sentinel `'none'` and excluding absent or empty category
values, in first-seen order — equivalently, it agrees with the spec's
description applied to the records whose category is present and non-empty;
over the categories `'none'` and `'outage'` it yields exactly `'outage'`. -/
theorem c7_category_discovery_amended :
    (∀ items : List Record,
        populateCategoriesModel items =
          specCategoryDiscovery (items.filter
            (fun r => decide (r.category ≠ some "" ∧ r.category ≠ none)))) ∧
    populateCategoriesModel [recNoneCat, recOutage] = ["outage"] := by
  constructor
  · intro items
    unfold populateCategoriesModel specCategoryDiscovery
    exact populate_filter_eq items []
  · decide

/-- Unchecking every box leaves no checked box. -/
theorem map_false_any :
    ∀ l : List Bool, ((l.map fun _ => false).any fun b => b) = false := by
  intro l
  induction l with
  | nil => rfl
  | cons b bs ih => simp [ih]

/-- A freshly rendered group has no checked individual box. -/
theorem replicate_false_any :
    ∀ n : Nat, ((List.replicate n false).any fun b => b) = false := by
  intro n
  induction n with
  | zero => rfl
  | succ n ih => simp [List.replicate, ih]

/-- Toggling one box of an all-unchecked group and landing unchecked (the
box did not exist) leaves the group all-unchecked. -/
theorem toggleAt_any :
    ∀ (bs : List Bool) (i : Nat),
      (bs.any fun b => b) = false →
      getAt (toggleAt bs i) i = false →
      ((toggleAt bs i).any fun b => b) = false := by
  intro bs
  induction bs with
  | nil => intro i _ _; rfl
  | cons b bs ih =>
    intro i hany hget
    have hb : b = false := by
      cases hbv : b
      · rfl
      · rw [hbv] at hany; simp at hany
    have hbs : (bs.any fun b => b) = false := by
      rw [hb] at hany; simpa using hany
    cases i with
    | zero =>
      have : getAt (toggleAt (b :: bs) 0) 0 = !b := rfl
      rw [this, hb] at hget
      simp at hget
    | succ i =>
      have ht : toggleAt (b :: bs) (i + 1) = b :: toggleAt bs i := rfl
      have hg : getAt (toggleAt (b :: bs) (i + 1)) (i + 1) = getAt (toggleAt bs i) i := by
        rw [ht]; rfl
      rw [hg] at hget
      rw [ht]
      simp [hb]
      simpa using ih i hbs hget

/-- One settled click preserves the exclusivity invariant: never "All"
checked together with a checked individual box. -/
theorem cbStep_inv (s : CheckboxGroup) (e : CbEvent)
    (h : (s.allBox && s.boxes.any fun b => b) = false) :
    ((cbStep s e).allBox && (cbStep s e).boxes.any fun b => b) = false := by
  cases e with
  | toggleAll =>
    unfold cbStep
    cases hs : s.allBox
    · simp [hs, map_false_any]
    · simp [hs]
  | toggleBox i =>
    unfold cbStep
    by_cases hg : getAt (toggleAt s.boxes i) i = true
    · simp [hg]
    · have hg' : getAt (toggleAt s.boxes i) i = false := by
        cases hgv : getAt (toggleAt s.boxes i) i
        · rfl
        · exact absurd hgv hg
      cases hs : s.allBox
      · simp [hg', hs]
      · have hbs : (s.boxes.any fun b => b) = false := by
          rw [hs] at h; simpa using h
        simp [hg', hs, toggleAt_any s.boxes i hbs hg']

/-- The invariant is preserved by every finished event sequence. -/
theorem foldl_cbStep_inv :
    ∀ (evs : List CbEvent) (s : CheckboxGroup),
      ((s.allBox && s.boxes.any fun b => b) = false) →
      (((evs.foldl cbStep s).allBox && (evs.foldl cbStep s).boxes.any fun b => b) = false) := by
  intro evs
  induction evs with
  | nil => intro s h; simpa using h
  | cons e evs ih =>
    intro s h
    rw [List.foldl_cons]
    exact ih _ (cbStep_inv s e h)

/-- C9: after any finished sequence of checkbox clicks from the page-load
state, the "All" selector and the individual selection are never
simultaneously active — "All" checked together with some individual box
checked never happens, in either the urgency or the category group (both
run the same handlers). -/
theorem c9_checkbox_exclusive :
    ∀ (n : Nat) (evs : List CbEvent),
      ((runEvents n evs).allBox && (runEvents n evs).boxes.any fun b => b) = false := by
  intro n evs
  unfold runEvents
  apply foldl_cbStep_inv
  simp [initGroup, replicate_false_any]

/-- Insertion with a comparator that only reads the record part commutes
with projecting the record part. -/
theorem insertLE_map_fst (le : Record → Record → Bool) (a : Record × Bool) :
    ∀ l : List (Record × Bool),
      (insertLE (fun x y => le x.1 y.1) a l).map (fun e => e.1) =
        insertLE le a.1 (l.map fun e => e.1) := by
  intro l
  induction l with
  | nil => rfl
  | cons b bs ih =>
    show (if le a.1 b.1 then a :: b :: bs
          else b :: insertLE (fun x y => le x.1 y.1) a bs).map (fun e => e.1) =
        if le a.1 b.1 then a.1 :: b.1 :: bs.map (fun e => e.1)
        else b.1 :: insertLE le a.1 (bs.map fun e => e.1)
    by_cases h : le a.1 b.1 = true
    · rw [if_pos h, if_pos h]
      rfl
    · rw [if_neg h, if_neg h, List.map_cons, ih]

/-- Sorting with a comparator that only reads the record part commutes with
projecting the record part. -/
theorem stableSort_map_fst (le : Record → Record → Bool) :
    ∀ l : List (Record × Bool),
      (stableSort (fun x y => le x.1 y.1) l).map (fun e => e.1) =
        stableSort le (l.map fun e => e.1) := by
  intro l
  induction l with
  | nil => rfl
  | cons a as ih =>
    show (insertLE (fun x y => le x.1 y.1) a
        (stableSort (fun x y => le x.1 y.1) as)).map (fun e => e.1) =
      insertLE le a.1 (stableSort le (as.map fun e => e.1))
    rw [insertLE_map_fst, ih]

/-- C8 counterexample: clearAllFilters hides the empty-state indicator
unconditionally (training.js:265), so a clear over an empty record
collection leaves `visibleCount = 0` with the indicator hidden, violating
"shown exactly when visibleCount == 0"; and clear does not re-sort, so over
a page left in ascending date order it returns the records still as
`[recA, recB]` although the default newest-first order of that collection
is `[recB, recA]`. -/
theorem c8_counterexample :
    (runClear uiEmpty).2.visibleCountText = 0 ∧
    (runClear uiEmpty).2.noResultsShown = false ∧
    (runClear uiTwo).2.dom = [(recA, true), (recB, true)] ∧
    sortRecords SortOrder.newest [recA, recB] = [recB, recA] := by
  refine ⟨rfl, rfl, rfl, ?_⟩
  decide

/-- C8 amended: after every filterItems run the empty-state indicator is
shown exactly when the visible count is 0, and the view is recomputed in
full — its visible sequence and count are exactly apply's result on the
record collection; after clearAllFilters every record is shown in its
current rendered order (no re-sort), the count is the collection size, the
filter state is back to default, and the empty-state indicator is always
hidden, whether or not the collection is empty. -/
theorem c8_view_sync_amended :
    ∀ (f : Filters) (ui : ViewUI),
      (runFilterItems f ui).noResultsShown =
        decide ((runFilterItems f ui).visibleCountText = 0) ∧
      ((runFilterItems f ui).dom.filter (fun e => e.2)).map (fun e => e.1) =
        (filterItems f (ui.dom.map fun e => e.1)).1 ∧
      (runFilterItems f ui).visibleCountText =
        (filterItems f (ui.dom.map fun e => e.1)).2 ∧
      (runClear ui).1 = defaultFilters ∧
      (runClear ui).2.dom = ui.dom.map (fun e => (e.1, true)) ∧
      (runClear ui).2.visibleCountText = ui.dom.length ∧
      (runClear ui).2.noResultsShown = false := by
  intro f ui
  have hmain : ((runFilterItems f ui).dom.filter (fun e => e.2)).map (fun e => e.1) =
      (filterItems f (ui.dom.map fun e => e.1)).1 := by
    show (((stableSort (fun a b => recLE f.sortBy a.1 b.1) ui.dom).map
          (fun e => (e.1, matchesFilters f e.1))).filter (fun e => e.2)).map (fun e => e.1) =
        (filterItems f (ui.dom.map fun e => e.1)).1
    rw [filterItems_eq]
    rw [List.filter_map, List.map_map]
    show ((stableSort (fun a b => recLE f.sortBy a.1 b.1) ui.dom).filter
          (fun e => matchesFilters f e.1)).map (fun e => e.1) =
        (sortRecords f.sortBy (ui.dom.map fun e => e.1)).filter (matchesFilters f)
    unfold sortRecords
    rw [← stableSort_map_fst (recLE f.sortBy) ui.dom]
    rw [List.filter_map]
    rfl
  have hcount : (runFilterItems f ui).visibleCountText =
      (filterItems f (ui.dom.map fun e => e.1)).2 := by
    have h1 : (runFilterItems f ui).visibleCountText =
        ((runFilterItems f ui).dom.filter (fun e => e.2)).length := rfl
    have h2 := congrArg List.length hmain
    rw [List.length_map] at h2
    rw [h1, h2, (c1_apply_total.2 f (ui.dom.map fun e => e.1))]
  exact ⟨rfl, hmain, hcount, rfl, rfl, rfl, rfl⟩

/-- The comparator is antisymmetric in sign: swapping the arguments negates
its value (NaN cases are 0 on both sides). -/
theorem sortCompare_swap (ord : SortOrder) (a b : Record) :
    sortCompare ord b a = -(sortCompare ord a b) := by
  unfold sortCompare
  cases dateMs a.date <;> cases dateMs b.date <;> cases ord <;> simp

/-- A record whose date attribute is not unparseable has the numeric date
`dateValue` (missing dates being the epoch 0). -/
theorem dateMs_of_not_invalid {r : Record} (h : r.date ≠ DateAttr.invalid) :
    dateMs r.date = some (dateValue r) := by
  unfold dateValue
  cases hd : r.date
  · rfl
  · rfl
  · exact absurd hd h

/-- On parseable dates, the `'newest'` comparator allows `a` before `b`
exactly when `b`'s date is not newer. -/
theorem sortCompare_le_iff_newest {a b : Record}
    (ha : a.date ≠ DateAttr.invalid) (hb : b.date ≠ DateAttr.invalid) :
    sortCompare SortOrder.newest a b ≤ 0 ↔ dateValue b ≤ dateValue a := by
  unfold sortCompare
  rw [dateMs_of_not_invalid ha, dateMs_of_not_invalid hb]
  simp

/-- On parseable dates, the `'oldest'` comparator allows `a` before `b`
exactly when `a`'s date is not newer. -/
theorem sortCompare_le_iff_oldest {a b : Record}
    (ha : a.date ≠ DateAttr.invalid) (hb : b.date ≠ DateAttr.invalid) :
    sortCompare SortOrder.oldest a b ≤ 0 ↔ dateValue a ≤ dateValue b := by
  unfold sortCompare
  rw [dateMs_of_not_invalid ha, dateMs_of_not_invalid hb]
  simp

/-- Insertion keeps the output pairwise-ordered for any transitive relation
the comparator decides on records with parseable dates. -/
theorem pairwise_insertLE_rec (ord : SortOrder) (R : Record → Record → Prop)
    (htrans : ∀ x y z : Record, R x y → R y z → R x z)
    (hiff : ∀ x y : Record, x.date ≠ DateAttr.invalid → y.date ≠ DateAttr.invalid →
      (sortCompare ord x y ≤ 0 ↔ R x y))
    (x : Record) (hx : x.date ≠ DateAttr.invalid) :
    ∀ m : List Record, (∀ r ∈ m, r.date ≠ DateAttr.invalid) →
      m.Pairwise R → (insertLE (recLE ord) x m).Pairwise R := by
  intro m
  induction m with
  | nil => intro _ _; simp [insertLE]
  | cons b bs ih =>
    intro hmem hp
    have hb : b.date ≠ DateAttr.invalid := hmem b (by simp)
    have hbs : ∀ r ∈ bs, r.date ≠ DateAttr.invalid := fun r hr => hmem r (by simp [hr])
    rw [List.pairwise_cons] at hp
    obtain ⟨hbrest, hpbs⟩ := hp
    show (if recLE ord x b then x :: b :: bs else b :: insertLE (recLE ord) x bs).Pairwise R
    by_cases hle : recLE ord x b = true
    · rw [if_pos hle]
      have hxb : R x b := (hiff x b hx hb).1 (of_decide_eq_true hle)
      rw [List.pairwise_cons]
      refine ⟨?_, ?_⟩
      · intro y hy
        rcases List.mem_cons.1 hy with rfl | hy'
        · exact hxb
        · exact htrans x b y hxb (hbrest y hy')
      · rw [List.pairwise_cons]
        exact ⟨hbrest, hpbs⟩
    · rw [if_neg hle]
      rw [List.pairwise_cons]
      refine ⟨?_, ih hbs hpbs⟩
      intro y hy
      rcases mem_insertLE.1 hy with rfl | hy'
      · have hpos : ¬ sortCompare ord y b ≤ 0 := fun hc => hle (decide_eq_true hc)
        have hswap : sortCompare ord b y ≤ 0 := by
          rw [sortCompare_swap]
          omega
        exact (hiff b y hb hx).1 hswap
      · exact hbrest y hy'

/-- The whole sort is pairwise-ordered for any transitive relation the
comparator decides, provided no record has an unparseable date. -/
theorem pairwise_sortRecords (ord : SortOrder) (R : Record → Record → Prop)
    (htrans : ∀ x y z : Record, R x y → R y z → R x z)
    (hiff : ∀ x y : Record, x.date ≠ DateAttr.invalid → y.date ≠ DateAttr.invalid →
      (sortCompare ord x y ≤ 0 ↔ R x y)) :
    ∀ l : List Record, (∀ r ∈ l, r.date ≠ DateAttr.invalid) →
      (sortRecords ord l).Pairwise R := by
  intro l
  induction l with
  | nil => intro _; simp [sortRecords, stableSort]
  | cons x xs ih =>
    intro hmem
    have hx : x.date ≠ DateAttr.invalid := hmem x (by simp)
    have hxs : ∀ r ∈ xs, r.date ≠ DateAttr.invalid := fun r hr => hmem r (by simp [hr])
    show (insertLE (recLE ord) x (stableSort (recLE ord) xs)).Pairwise R
    apply pairwise_insertLE_rec ord R htrans hiff x hx
    · intro r hr
      exact hxs r (mem_stableSort.1 hr)
    · exact ih hxs

/-- C4 counterexample: a record with a non-empty unparseable `data-date`
does not behave as epoch 0 — the comparator against it is NaN, coerced to
+0 (equal), so it keeps its input position.  Under `'newest'` the claim
demands `[recValid100, recInvalid]` and under `'oldest'` it demands
`[recInvalid, recValid100]`, but the code returns the input order in both
runs below. -/
theorem c4_counterexample :
    sortRecords SortOrder.newest [recInvalid, recValid100] = [recInvalid, recValid100] ∧
    sortRecords SortOrder.oldest [recValid100, recInvalid] = [recValid100, recInvalid] := by
  constructor
  · decide
  · decide

/-- C4 amended: a record whose `data-date` is absent (or empty) is treated
as epoch 0, and in any collection without unparseable dates the sorted
output is pairwise newest-first under `'newest'` and pairwise oldest-first
under `'oldest'` — so an epoch-0 record sorts after every record with a
positive timestamp under `'newest'` and before them under `'oldest'`.
Records with a non-empty unparseable date are not treated as epoch 0: every
comparison against them is NaN, coerced to 0, so they compare equal to
everything and keep their input position. -/
theorem c4_missing_unparseable_amended :
    ∀ l : List Record, (∀ r ∈ l, r.date ≠ DateAttr.invalid) →
      ((sortRecords SortOrder.newest l).Pairwise fun a b => dateValue b ≤ dateValue a) ∧
      ((sortRecords SortOrder.oldest l).Pairwise fun a b => dateValue a ≤ dateValue b) ∧
      dateMs DateAttr.missing = some 0 := by
  intro l hl
  refine ⟨?_, ?_, rfl⟩
  · exact pairwise_sortRecords SortOrder.newest (fun a b => dateValue b ≤ dateValue a)
      (fun x y z h1 h2 => le_trans h2 h1)
      (fun x y hx hy => sortCompare_le_iff_newest hx hy) l hl
  · exact pairwise_sortRecords SortOrder.oldest (fun a b => dateValue a ≤ dateValue b)
      (fun x y z h1 h2 => le_trans h1 h2)
      (fun x y hx hy => sortCompare_le_iff_oldest hx hy) l hl

/-- Witness for the amended C4 at a concrete input: a missing-date record
and a record dated 100, whose newest-first sort is pairwise descending. -/
theorem c4_amended_witness :
    (∀ r ∈ [recMissing, recValid100], r.date ≠ DateAttr.invalid) ∧
    ((sortRecords SortOrder.newest [recMissing, recValid100]).Pairwise
      fun a b => dateValue b ≤ dateValue a) :=
  ⟨by decide, (c4_missing_unparseable_amended [recMissing, recValid100] (by decide)).1⟩

end PortnetL2
